import Mathlib

/-!
# Verification of the `ydfs` filesystem layer

A shallow embedding of the `ydfs` package (a Yandex-Disk-backed
implementation of Go's `fs.FS`) and proofs about its claims.

The remote Yandex Disk API is an external collaborator; following the
repository's own interface (`apiclient`: metadata fetch with or without
embedded children, whole-file download, upload, mkdir, permanent delete)
it is modelled as an association list from absolute slash-separated paths
to nodes, together with a trace of issued remote calls.  Paths held by the
model store are already in the normalized form the spec's §6 describes
(no `disk:` root token), so `normalizeResource`'s token stripping is the
identity on them.

Go `int` values that can go negative (`ReadDir`'s `n`) are `Int`;
offsets, which are only ever zeroed or incremented, are `Nat`.
File bodies (`[]byte`) are `List Nat`.
-/

/-- Kinds of underlying Go error values used by the package:
the `apiclient` sentinel errors (`ErrNotFound`, `ErrAPI`, `ErrNetwork`,
`ErrInternal`), `io.EOF`, and the literal `fmt.Errorf` messages created in
`fs.go`/`file.go`.  `outOfFuel` is an artifact of the embedding of the
(potentially unbounded) recursion in `RemoveAll`; no theorem below ever
lets it be reached. -/
inductive ErrKind where
  | notFound
  | apiErr
  | network
  | internal
  | eof
  | isADirectory
  | notADirectory
  | dirNotEmpty
  | outOfFuel
  deriving DecidableEq, Repr

/-- A Go error value as produced by the package: either a bare error
(`io.EOF`, a client sentinel, a literal message) or an `fs.PathError`
wrapping an operation name, a path and an underlying error. -/
inductive GoErr where
  | base (k : ErrKind)
  | pathError (op : String) (path : String) (err : GoErr)
  deriving DecidableEq, Repr

/-- `errors.Is(err, ErrNotFound)`: `fs.PathError` implements `Unwrap`,
so `errors.Is` looks through any number of `PathError` wrappers. -/
def GoErr.isNotFound : GoErr → Bool
  | .base k => k = ErrKind.notFound
  | .pathError _ _ e => e.isNotFound

/-- A node of the remote store: a directory, or a file with byte content.
`size` and `modified` are the metadata echoed back by the remote. -/
structure Node where
  isdir : Bool
  content : List Nat := []
  size : Int := 0
  modified : Nat := 0
  deriving DecidableEq, Repr

/-- The remote store: an association list from absolute normalized paths
to nodes.  List order is the order the remote reports children in. -/
abbrev St := List (String × Node)

/-- First-match association-list lookup. -/
def lookupSt (st : St) (p : String) : Option Node :=
  match st with
  | [] => none
  | (q, n) :: rest => if q = p then some n else lookupSt rest p

/-! ## Path helpers

Character-list implementations of the Go `path` / `strings` functions the
package uses: `strings.Split(s, "/")`, `strings.Trim(s, "/")`,
`path.Clean` and `path.Join`. -/

/-- `strings.Split(s, "/")` on the character list of `s`:
`""` splits to `[""]`, separators at the ends produce empty fields. -/
def splitSlash : List Char → List (List Char)
  | [] => [[]]
  | c :: rest =>
    if c = '/' then [] :: splitSlash rest
    else
      match splitSlash rest with
      | [] => [[c]]
      | s :: ss => (c :: s) :: ss

/-- Join segments with `'/'` (inverse of `splitSlash` on canonical input). -/
def joinSegs : List (List Char) → List Char
  | [] => []
  | [s] => s
  | s :: rest => s ++ '/' :: joinSegs rest

/-- The segment-processing core of Go's `path.Clean`: empty and `"."`
segments are dropped; `".."` pops the last kept segment, except that at
the root of a rooted path it is dropped and at the front of a relative
path it is kept. -/
def cleanCore (rooted : Bool) : List (List Char) → List (List Char) → List (List Char)
  | [], acc => acc.reverse
  | s :: rest, acc =>
    if s = [] ∨ s = ['.'] then cleanCore rooted rest acc
    else if s = ['.', '.'] then
      match acc with
      | [] =>
        if rooted then cleanCore rooted rest []
        else cleanCore rooted rest [['.', '.']]
      | a :: as =>
        if a = ['.', '.'] then cleanCore rooted rest (s :: a :: as)
        else cleanCore rooted rest as
    else cleanCore rooted rest (s :: acc)

/-- Go's `path.Clean`. -/
def goPathClean (s : String) : String :=
  if s = "" then "."
  else
    let rooted := s.data.head? = some '/'
    let segs := cleanCore rooted (splitSlash s.data) []
    if rooted then String.mk ('/' :: joinSegs segs)
    else if segs = [] then "."
    else String.mk (joinSegs segs)

/-- Go's `path.Join` on two elements: empty elements are skipped, the
rest are joined with `"/"` and cleaned; all-empty input gives `""`. -/
def goPathJoin (a b : String) : String :=
  if a = "" ∧ b = "" then ""
  else if a = "" then goPathClean b
  else if b = "" then goPathClean a
  else goPathClean (a ++ "/" ++ b)

/-- `strings.Trim(s, "/")`. -/
def goTrimSlashes (s : String) : String :=
  String.mk (((s.data.dropWhile (fun c => c = '/')).reverse.dropWhile
    (fun c => c = '/')).reverse)

/-- `strings.Split(s, "/")` returning strings. -/
def goSplitSlash (s : String) : List String :=
  (splitSlash s.data).map (fun l => String.mk l)

/-- Decidable character-list prefix test (used instead of
`String.startsWith`, which does not reduce in the kernel). -/
def isPrefixL : List Char → List Char → Bool
  | [], _ => true
  | _ :: _, [] => false
  | a :: as, b :: bs => if a = b then isPrefixL as bs else false

/-- Does a character list contain `'/'`? -/
def hasSlash : List Char → Bool
  | [] => false
  | c :: rest => if c = '/' then true else hasSlash rest

/-- The last path segment of `p` (characters after the final `'/'`). -/
def lastSeg (p : String) : String :=
  String.mk ((p.data.reverse.takeWhile (fun c => c ≠ '/')).reverse)

/-- The parent path of `p` (`"/a/b" ↦ "/a"`, `"/a" ↦ "/"`, `"/" ↦ "/"`).
Used only by the remote-store model of `createDirectory` to check the
missing-ancestor condition of spec §6. -/
def parentPath (p : String) : String :=
  let t := (p.data.reverse.dropWhile (fun c => c ≠ '/')).reverse
  if t = ['/'] then "/" else String.mk t.dropLast

/-- The prefix every child path of directory `p` starts with. -/
def childPref (p : String) : String := if p = "/" then "/" else p ++ "/"

/-- Is `q` a strict descendant of `anc` in the path tree? -/
def underOf (anc q : String) : Bool :=
  isPrefixL (childPref anc).data q.data && q.data.length > (childPref anc).data.length

/-- Is `q` a direct child path of directory `p`? -/
def isDirectChild (p q : String) : Bool :=
  isPrefixL (childPref p).data q.data && q.data.length > (childPref p).data.length
    && !(hasSlash (q.data.drop (childPref p).data.length))

/-! ## The remote resource client model (spec §6) -/

/-- A remote resource snapshot as unmarshalled from the API: the fields
of the repository's `resource` struct that the core reads
(`minimalFields`: name, path, type, size, modified). -/
structure Resource where
  path : String
  name : String
  type : String
  size : Int
  modified : Nat
  deriving DecidableEq, Repr

/-- The resource the remote reports for path `p` holding node `n`.  The
real remote names the root node `disk` (which `normalizeResource` later
rewrites to `"/"`). -/
def resourceOf (p : String) (n : Node) : Resource :=
  { path := p
    name := if p = "/" then "disk" else lastSeg p
    type := if n.isdir then "dir" else "file"
    size := n.size
    modified := n.modified }

/-- `normalizeResource` (`fs.go`): strip the `disk:` root token from the
path and rename the root from `disk` to `"/"`.  Model paths never embed
the token other than as a leading prefix, so a prefix test stands in for
`strings.Replace(..., 1)`. -/
def normalizeResourceM (r : Resource) : Resource :=
  let p := if isPrefixL "disk:".data r.path.data then r.path.drop 5 else r.path
  let nm := if p = "/" ∧ r.name = "disk" then "/" else r.name
  { r with path := p, name := nm }

/-- All direct children of `p` in store order, as resources. -/
def childrenOf (st : St) (p : String) : List Resource :=
  (st.filter (fun e => isDirectChild p e.1)).map (fun e => resourceOf e.1 e.2)

/-- `apiclient.getResourceMinTraffic`: metadata of one node, no children. -/
def getResourceMinTrafficM (st : St) (p : String) : Except ErrKind Resource :=
  match lookupSt st p with
  | none => .error .notFound
  | some n => .ok (resourceOf p n)

/-- `apiclient.getResourceWithEmbedded`: metadata plus the embedded child
listing (`res.Embedded.Items`). -/
def getResourceWithEmbeddedM (st : St) (p : String) :
    Except ErrKind (Resource × List Resource) :=
  match lookupSt st p with
  | none => .error .notFound
  | some n => .ok (resourceOf p n, childrenOf st p)

/-- `apiclient.getFile`: the complete byte content of a file. -/
def getFileM (st : St) (p : String) : Except ErrKind (List Nat) :=
  match lookupSt st p with
  | none => .error .notFound
  | some n => if n.isdir then .error .apiErr else .ok n.content

/-- `apiclient.mkdir`: conflict if the path exists, not-found if an
ancestor is missing, otherwise the new directory is appended. -/
def mkdirClientM (st : St) (p : String) : Except ErrKind St :=
  match lookupSt st p with
  | some _ => .error .apiErr
  | none =>
    if parentPath p = "/" then .ok (st ++ [(p, { isdir := true })])
    else
      match lookupSt st (parentPath p) with
      | some par =>
        if par.isdir then .ok (st ++ [(p, { isdir := true })])
        else .error .apiErr
      | none => .error .notFound

/-- `apiclient.delResourcePermanently`: not-found if the path is absent,
otherwise the node and (remotely, in one call) its whole subtree are
removed. -/
def delPermClientM (st : St) (p : String) : Except ErrKind St :=
  match lookupSt st p with
  | none => .error .notFound
  | some _ => .ok (st.filter (fun e => !(e.1 = p || underOf p e.1)))

/-- One remote call, for traces of issued calls. -/
inductive Call where
  | fetchMeta (path : String)
  | fetchEmbedded (path : String)
  | fetchFile (path : String)
  | putFile (path : String) (data : List Nat)
  | mkdirCall (path : String)
  | delPerm (path : String)
  deriving DecidableEq, Repr

/-! ## The scoped view (`ydfs` struct, `fs.go`) -/

/-- The `ydfs` struct: base path and the sub-FS flag (the `client` field
is the store/trace plumbing threaded through each operation). -/
structure YdfsV where
  path : String
  issub : Bool
  deriving DecidableEq, Repr

/-- `(*ydfs).getFullPath` (`fs.go`): resolve a caller name against the
scope. -/
def getFullPath (y : YdfsV) (name : String) : String :=
  if y.issub then goPathJoin y.path name else name

/-- `(*ydfs).trimRootPath` (`fs.go`): drop the first `len(y.path)`
characters of a scoped name. -/
def trimRootPath (y : YdfsV) (name : String) : String :=
  if y.issub then name.drop y.path.length else name

/-! ## The file handle (`ydfile`, `file.go`) -/

/-- The `ydfile` struct of `file.go`.  `data = none` is Go's nil slice
(body not fetched yet). -/
structure Ydfile where
  path : String
  name : String
  isdir : Bool
  modtime : Nat
  rdoffset : Nat
  roffset : Nat
  size : Int
  data : Option (List Nat)
  deriving DecidableEq, Repr

/-- `(*ydfile).Name` (`file.go`). -/
def Ydfile.nameI (f : Ydfile) : String := f.name

/-- `(*ydfile).Size` (`file.go`). -/
def Ydfile.sizeI (f : Ydfile) : Int := f.size

/-- `(*ydfile).ModTime` (`file.go`). -/
def Ydfile.modTimeI (f : Ydfile) : Nat := f.modtime

/-- `(*ydfile).IsDir` (`file.go`). -/
def Ydfile.isDirI (f : Ydfile) : Bool := f.isdir

/-- `(*ydfile).update` (`file.go`): fetch minimal metadata, normalize it
and refresh the handle's fields. -/
def updateM (st : St) (f : Ydfile) : Except ErrKind Ydfile :=
  match getResourceMinTrafficM st f.path with
  | .error e => .error e
  | .ok r0 =>
    let r := normalizeResourceM r0
    .ok { f with
          path := r.path
          name := r.name
          isdir := r.type = "dir"
          size := r.size
          modtime := r.modified }

/-- The cached-body tail of `(*ydfile).Read` (`file.go` lines 53-70),
entered with the body `d` cached in `file.data`: at the end of the body
return `(0, io.EOF)`; otherwise copy
`toRead = min(len(b), len(data)-roffset)` bytes starting at `roffset`,
set `io.EOF` only when `len(b)` exceeds what remained, and advance
`roffset` by `toRead`.  The result is
`((count, bytes written to b, error), updated handle)`. -/
def readCached (file : Ydfile) (d : List Nat) (blen : Nat) :
    (Nat × List Nat × Option GoErr) × Ydfile :=
  if file.roffset = d.length then
    ((0, [], some (.base .eof)), file)
  else
    let rem := d.length - file.roffset
    let toRead := if blen > rem then rem else blen
    let errR : Option GoErr := if blen > rem then some (.base .eof) else none
    ((toRead, (d.drop file.roffset).take toRead, errR),
      { file with roffset := file.roffset + toRead })

/-- `(*ydfile).Read` (`file.go`): directories fail with an
`is a directory` path error; a nil body is first fetched whole via
`getFile` (resetting `roffset`); then the cached-body copy runs. -/
def readF (file : Ydfile) (st : St) (blen : Nat) :
    (Nat × List Nat × Option GoErr) × Ydfile :=
  if file.isdir then
    ((0, [], some (.pathError "read" file.path (.base .isADirectory))), file)
  else
    match file.data with
    | none =>
      match getFileM st file.path with
      | .error e => ((0, [], some (.pathError "read" file.path (.base e))), file)
      | .ok bs => readCached { file with data := some bs, roffset := 0 } bs blen
    | some d => readCached file d blen

/-- `(*ydfile).ReadDir` (`file.go`): files fail with `not a directory`;
the embedded child listing is refetched on every call; then the cursor
logic of lines 103-118 runs on `n`, `total` and
`remaining = total - rdoffset`.  Each appended entry is the handle
itself (`entries[i] = file`); since all entries alias the one handle,
they are modelled as its post-call value.  `make([]fs.DirEntry, n)`
panics in Go when `n` is negative (only reachable when `rdoffset`
exceeds the fetched total); the model returns `[]` there. -/
def readDirF (file : Ydfile) (st : St) (n : Int) :
    (List Ydfile × Option GoErr) × Ydfile :=
  if !file.isdir then
    (([], some (.pathError "readdirent" file.path (.base .notADirectory))), file)
  else
    match getResourceWithEmbeddedM st file.path with
    | .error e =>
      (([], some (.pathError "readdirent" file.path (.base e))), file)
    | .ok (_res, items) =>
      let total : Int := items.length
      let remaining : Int := total - (file.rdoffset : Int)
      if n < 1 then
        let newOff := total.toNat
        ((List.replicate newOff { file with rdoffset := newOff }, none),
          { file with rdoffset := newOff })
      else
        let cnt : Int :=
          if n > remaining then remaining
          else if n < remaining then remaining
          else n
        let errResult : Option GoErr :=
          if n > remaining then some (.base .eof) else none
        let newOff := file.rdoffset + cnt.toNat
        ((List.replicate cnt.toNat { file with rdoffset := newOff }, errResult),
          { file with rdoffset := newOff })

/-- `(*ydfile).ReadDir` of the `ydfs.go` variant: the same cursor logic,
but each entry is `&ydinfo{res.Embedded.Items[file.rdoffset]}` — a value
built from the fetched listing. -/
def readDirY (file : Ydfile) (st : St) (n : Int) :
    (List Resource × Option GoErr) × Ydfile :=
  if !file.isdir then
    (([], some (.pathError "readdirent" file.path (.base .notADirectory))), file)
  else
    match getResourceWithEmbeddedM st file.path with
    | .error e =>
      (([], some (.pathError "readdirent" file.path (.base e))), file)
    | .ok (_res, items) =>
      let total : Int := items.length
      let remaining : Int := total - (file.rdoffset : Int)
      if n < 1 then
        let newOff := total.toNat
        ((items.take newOff, none), { file with rdoffset := newOff })
      else
        let cnt : Int :=
          if n > remaining then remaining
          else if n < remaining then remaining
          else n
        let errResult : Option GoErr :=
          if n > remaining then some (.base .eof) else none
        let newOff := file.rdoffset + cnt.toNat
        (((items.drop file.rdoffset).take cnt.toNat, errResult),
          { file with rdoffset := newOff })

/-! ## FS operations (`fs.go`) -/

/-- `(*ydfs).newfile` (`fs.go`): a fresh handle with only the client and
path set (Go zero values elsewhere; nil `data`). -/
def newfileM (path : String) : Ydfile :=
  { path := path, name := "", isdir := false, modtime := 0,
    rdoffset := 0, roffset := 0, size := 0, data := none }

/-- `(*ydfs).open` (`fs.go`): build the handle on the resolved path and
`update` it, wrapping failures as `&fs.PathError{Op: "open", Path: name}`.
Also the body of `Open` and of `Stat` (`fs.go` returns the same `*ydfile`
as the `fs.FileInfo`). -/
def openM (y : YdfsV) (st : St) (name : String) :
    Except GoErr Ydfile × List Call :=
  let full := getFullPath y name
  match updateM st (newfileM full) with
  | .error e => (.error (.pathError "open" name (.base e)), [.fetchMeta full])
  | .ok f => (.ok f, [.fetchMeta full])

/-- `(*ydfs).Stat` (`fs.go`) is exactly `y.open(name)`. -/
def statFsM (y : YdfsV) (st : St) (name : String) :
    Except GoErr Ydfile × List Call :=
  openM y st name

/-- `(*ydfs).Create` (`fs.go`): `return nil, nil` — no remote call, no
state change, a nil handle and a nil error. -/
def createM (_y : YdfsV) (st : St) (_name : String) :
    (Option Ydfile × Option GoErr) × St × List Call :=
  ((none, none), st, [])

/-- `(*ydfs).Mkdir` (`fs.go`): one `mkdir` client call on the resolved
path, errors wrapped as a `mkdir` path error carrying the caller name. -/
def mkdirM (y : YdfsV) (st : St) (name : String) :
    Option GoErr × St × List Call :=
  let full := getFullPath y name
  match mkdirClientM st full with
  | .error e => (some (.pathError "mkdir" name (.base e)), st, [.mkdirCall full])
  | .ok st' => (none, st', [.mkdirCall full])

/-- The prefix walk of `(*ydfs).MkdirAll` (`fs.go` lines 141-154): for
each remaining segment, extend `toMake`, `y.Stat` it; a non-NotFound
error or an existing non-directory aborts with a `mkdir` path error on
`trimRootPath(toMake)`; an existing directory is skipped; NotFound leads
to `y.Mkdir(toMake)` whose error aborts the walk as-is. -/
def mkdirAllWalk (y : YdfsV) : List String → String → St →
    Option GoErr × St × List Call
  | [], _toMake, st => (none, st, [])
  | seg :: rest, toMake, st =>
    let toMake := toMake ++ "/" ++ seg
    match statFsM y st toMake with
    | (.error e, tr) =>
      if e.isNotFound then
        match mkdirM y st toMake with
        | (some e', st', tr') => (some e', st', tr ++ tr')
        | (none, st', tr') =>
          let (r, st'', tr'') := mkdirAllWalk y rest toMake st'
          (r, st'', tr ++ tr' ++ tr'')
      else (some (.pathError "mkdir" (trimRootPath y toMake) e), st, tr)
    | (.ok s, tr) =>
      if !s.isdir then
        (some (.pathError "mkdir" (trimRootPath y toMake) (.base .notADirectory)),
          st, tr)
      else
        let (r, st', tr') := mkdirAllWalk y rest toMake st
        (r, st', tr ++ tr')

/-- `(*ydfs).MkdirAll` (`fs.go`): resolve, split the trimmed full path
on `"/"` and walk the prefixes. -/
def mkdirAllM (y : YdfsV) (st : St) (dir : String) :
    Option GoErr × St × List Call :=
  let fullname := getFullPath y dir
  mkdirAllWalk y (goSplitSlash (goTrimSlashes fullname)) "" st

/-- `(*ydfs).Remove` (`fs.go`): fetch the resolved node with children
(`stat` path error on failure); a directory with children fails with
`directory not empty`; otherwise `delResourcePermanently` is invoked on
the caller-supplied `name` (not on `fullname`). -/
def removeM (y : YdfsV) (st : St) (name : String) :
    Option GoErr × St × List Call :=
  let fullname := getFullPath y name
  match getResourceWithEmbeddedM st fullname with
  | .error e =>
    (some (.pathError "stat" name (.base e)), st, [.fetchEmbedded fullname])
  | .ok (res, items) =>
    if res.type = "dir" ∧ items.length > 0 then
      (some (.pathError "remove" name (.base .dirNotEmpty)), st,
        [.fetchEmbedded fullname])
    else
      match delPermClientM st name with
      | .error e =>
        (some (.pathError "remove" name (.base e)), st,
          [.fetchEmbedded fullname, .delPerm name])
      | .ok st' => (none, st', [.fetchEmbedded fullname, .delPerm name])

/-- The child loop of `RemoveAll` (`fs.go` lines 183-187): apply the
worker `f` (a recursive `RemoveAll` call) to `item.Path` for each child
in listing order, returning the first error immediately. -/
def removeAllLoop (f : St → String → Option GoErr × St × List Call) :
    List Resource → St → Option GoErr × St × List Call
  | [], st => (none, st, [])
  | item :: rest, st =>
    match f st item.path with
    | (some e, st', tr) => (some e, st', tr)
    | (none, st', tr) =>
      let (r, st'', tr') := removeAllLoop f rest st'
      (r, st'', tr ++ tr')

/-- `(*ydfs).RemoveAll` (`fs.go`): fetch the resolved node with
children; NotFound succeeds silently, other fetch errors abort; then
every child is passed to a recursive `RemoveAll` on `item.Path`
(children first, aborting at the first error) and finally
`delResourcePermanently` is invoked on the caller-supplied `dir`.
`fuel` bounds the recursion depth of the embedding; running out yields
the artificial `outOfFuel` error. -/
def removeAllM : Nat → YdfsV → St → String → Option GoErr × St × List Call
  | 0, _, st, _ => (some (.base .outOfFuel), st, [])
  | fuel + 1, y, st, dir =>
    let fullname := getFullPath y dir
    match getResourceWithEmbeddedM st fullname with
    | .error e =>
      if e = ErrKind.notFound then (none, st, [.fetchEmbedded fullname])
      else (some (.pathError "remove" dir (.base e)), st, [.fetchEmbedded fullname])
    | .ok (_res, items) =>
      match removeAllLoop (fun st' p => removeAllM fuel y st' p) items st with
      | (some e, st', tr) => (some e, st', .fetchEmbedded fullname :: tr)
      | (none, st', tr) =>
        match delPermClientM st' dir with
        | .error e =>
          (some (.pathError "remove" dir (.base e)), st',
            .fetchEmbedded fullname :: (tr ++ [.delPerm dir]))
        | .ok st'' => (none, st'', .fetchEmbedded fullname :: (tr ++ [.delPerm dir]))


/-! ## Spec-side path normalization (for the C8 contract) -/

/-- Modelled from the spec: `normalize(p)`.  §4.1 states the contract
`unresolve(resolve(p)) == normalize(p)` for a relative `p` within scope,
but the code has no `normalize` function; names returned to a scoped
caller are view-rooted, so the spec's normalized form of a relative path
is its cleaned, view-rooted form. -/
def specNormalize (p : String) : String := goPathClean ("/" ++ p)

/-- A plain path segment: nonempty, not `.` or `..`, and slash-free.
Paths assembled from such segments are exactly the already-clean rooted
paths, which is what "within scope" relative names look like. -/
def GoodSeg (s : List Char) : Prop :=
  s ≠ [] ∧ s ≠ ['.'] ∧ s ≠ ['.', '.'] ∧ ¬ '/' ∈ s

instance (s : List Char) : Decidable (GoodSeg s) :=
  inferInstanceAs (Decidable (s ≠ [] ∧ s ≠ ['.'] ∧ s ≠ ['.', '.'] ∧ ¬ '/' ∈ s))

/-- The rooted path `"/" + s1 + "/" + s2 + ...` over the given segments. -/
def absOfSegs (segs : List (List Char)) : String :=
  String.mk ('/' :: joinSegs segs)

/-- The relative path `s1 + "/" + s2 + ...` over the given segments. -/
def relOfSegs (segs : List (List Char)) : String :=
  String.mk (joinSegs segs)

/-! ## Concrete inputs used by counterexamples and witnesses -/

/-- A sub-FS view rooted at `/x`. -/
def scopedX : YdfsV := ⟨"/x", true⟩

/-- An unscoped (root) view. -/
def rootView : YdfsV := ⟨"/", false⟩

/-- An open FILE handle whose two-byte body is already cached. -/
def c1file : Ydfile :=
  { path := "/f", name := "f", isdir := false, modtime := 0,
    rdoffset := 0, roffset := 0, size := 2, data := some [1, 2] }

/-- An open DIRECTORY handle on `/d`, cursor at the start. -/
def c2dir : Ydfile :=
  { path := "/d", name := "d", isdir := true, modtime := 0,
    rdoffset := 0, roffset := 0, size := 0, data := none }

/-- A store in which `/d` has three children. -/
def c2st : St :=
  [("/d", { isdir := true }), ("/d/a", { isdir := false }),
   ("/d/b", { isdir := false }), ("/d/c", { isdir := false })]

/-- A store holding just the scope directory `/x`. -/
def c3st : St := [("/x", { isdir := true })]

/-- A store where the scoped target `/x/a` is a directory with one child
and an unrelated file sits at the unresolved path `/a`. -/
def c4st : St :=
  [("/x", { isdir := true }), ("/x/a", { isdir := true }),
   ("/x/a/b", { isdir := false }), ("/a", { isdir := false })]

/-- A store where the scoped target `/x/a` is a plain file. -/
def c5st : St := [("/x", { isdir := true }), ("/x/a", { isdir := false })]

/-- A directory handle on `/d` with one listing entry already consumed. -/
def c7file : Ydfile := { c2dir with rdoffset := 1 }

/-- A store in which `/d` has two children. -/
def c7st : St :=
  [("/d", { isdir := true }), ("/d/a", { isdir := false }),
   ("/d/b", { isdir := false })]

/-! ## C1: Read on a cached body -/

/-- C1 counterexample: with the two-byte body cached and `readOffset = 0`,
a `Read` with a buffer of exactly 2 bytes copies both bytes and reaches
the end of the body, yet returns a nil error — the claim says such a call
reports end-of-stream alongside the bytes it returned. -/
theorem c1_read_exact_fit_counterexample :
    readF c1file [] 2 = ((2, [1, 2], none), { c1file with roffset := 2 }) ∧
    (readF c1file [] 2).1.2.2 ≠ some (GoErr.base ErrKind.eof) := by
  constructor
  · decide
  · decide

/-- C1 (amended): for a FILE handle with body cached, a `Read(b)` call at
`readOffset = len(body)` returns zero bytes with end-of-stream; otherwise
it copies exactly `min(len(b), len(body) - readOffset)` bytes of the body
starting at `readOffset`, advances `readOffset` by that count and returns
it, and reports end-of-stream in that same call exactly when `len(b)` is
strictly greater than the bytes that remained (an exact-fit call returns
a nil error; end-of-stream then comes from the next call). -/
theorem c1_read_amended (file : Ydfile) (st : St) (blen : Nat) (body : List Nat)
    (hdir : file.isdir = false) (hdata : file.data = some body) :
    (file.roffset = body.length →
      readF file st blen = ((0, [], some (.base .eof)), file)) ∧
    (file.roffset < body.length →
      readF file st blen =
        ((min blen (body.length - file.roffset),
          (body.drop file.roffset).take (min blen (body.length - file.roffset)),
          if body.length - file.roffset < blen then some (.base .eof) else none),
         { file with roffset := file.roffset + min blen (body.length - file.roffset) })) := by
  constructor
  · intro hend
    simp [readF, hdir, hdata, readCached, hend]
  · intro hlt
    have hne : ¬ file.roffset = body.length := by omega
    have hmin : (if body.length - file.roffset < blen
        then body.length - file.roffset else blen)
        = min blen (body.length - file.roffset) := by
      split <;> omega
    simp only [readF, hdir, Bool.false_eq_true, if_false, hdata, readCached,
      if_neg hne, gt_iff_lt, hmin]

/-- C1 witness: the amended theorem applied to the cached two-byte handle
with a one-byte buffer. -/
theorem c1_read_amended_witness :
    c1file.roffset < ([1, 2] : List Nat).length ∧
    readF c1file [] 1 =
      ((1, [1], none), { c1file with roffset := 1 }) := by
  refine ⟨by decide, ?_⟩
  have h := (c1_read_amended c1file [] 1 [1, 2] (by decide) (by decide)).2
    (by decide)
  simpa [c1file] using h

/-! ## C2: ReadDir with positive n -/

/-- C2: evaluating `ReadDir(1)` on a directory of three children with the
cursor at 0: the code returns all three remaining entries, advances the
cursor by three and reports no end-of-stream, where the claim demands
exactly `min(1, 3) = 1` entry and an advance of one. -/
theorem c2_readdir_positive_eval :
    (readDirF c2dir c2st 1).1.1.length = 3 ∧
    (readDirF c2dir c2st 1).2.rdoffset = 3 ∧
    (readDirF c2dir c2st 1).1.2 = none ∧
    ¬((readDirF c2dir c2st 1).1.1.length = 1 ∧
      (readDirF c2dir c2st 1).2.rdoffset = 1) := by
  refine ⟨by decide, by decide, by decide, by decide⟩

/-! ## C3: MkdirAll -/

/-- C3: evaluating `MkdirAll("/a")` on the sub-FS rooted at `/x` (remote
holds only the directory `/x`): the claim's walk would stat the prefix
`/x` (an existing directory, skipped) and create exactly `/x/a`; the code
instead re-resolves each prefix through the scoped `Stat`/`Mkdir`,
double-joining the base, and so stats and creates `/x/x` and `/x/x/a`,
leaving `/x/a` absent. -/
theorem c3_mkdirall_scoped_eval :
    (mkdirAllM scopedX c3st "/a").1 = none ∧
    lookupSt (mkdirAllM scopedX c3st "/a").2.1 "/x/a" = none ∧
    lookupSt (mkdirAllM scopedX c3st "/a").2.1 "/x/x/a" = some { isdir := true } ∧
    (mkdirAllM scopedX c3st "/a").2.2 =
      [Call.fetchMeta "/x/x", Call.mkdirCall "/x/x",
       Call.fetchMeta "/x/x/a", Call.mkdirCall "/x/x/a"] := by
  refine ⟨by decide, by decide, by decide, by decide⟩

/-! ## C4: RemoveAll ordering -/

/-- C4: evaluating `RemoveAll("/a")` on the sub-FS rooted at `/x`, where
`/x/a` is a directory with child `/x/a/b` and an unrelated file sits at
`/a`: the recursive child call re-resolves the child's absolute path
against the base (fetching `/x/x/a/b`, NotFound, treated as success), and
the final delete is issued on the unresolved name `/a`; the call returns
success while the target directory and its child survive — the claim says
every child is removed before the node itself is deleted. -/
theorem c4_removeall_scoped_eval :
    (removeAllM 5 scopedX c4st "/a").1 = none ∧
    lookupSt (removeAllM 5 scopedX c4st "/a").2.1 "/x/a" = some { isdir := true } ∧
    lookupSt (removeAllM 5 scopedX c4st "/a").2.1 "/x/a/b" = some { isdir := false } ∧
    (removeAllM 5 scopedX c4st "/a").2.2 =
      [Call.fetchEmbedded "/x/a", Call.fetchEmbedded "/x/x/a/b",
       Call.delPerm "/a"] := by
  refine ⟨by decide, by decide, by decide, by decide⟩

/-! ## C5: Remove -/

/-- C5: evaluating `Remove("a")` on the sub-FS rooted at `/x`, where the
resolved path `/x/a` is a plain file: the metadata fetch goes to the
resolved `/x/a`, but the permanent delete is issued on the caller name
`a` (which fails NotFound), and the file at the resolved path survives —
the claim says the delete is invoked on that exact resolved path. -/
theorem c5_remove_scoped_eval :
    (removeM scopedX c5st "a").2.2 =
      [Call.fetchEmbedded "/x/a", Call.delPerm "a"] ∧
    (removeM scopedX c5st "a").1 =
      some (.pathError "remove" "a" (.base .notFound)) ∧
    lookupSt (removeM scopedX c5st "a").2.1 "/x/a" = some { isdir := false } := by
  refine ⟨by decide, by decide, by decide⟩

/-! ## C6: RemoveAll on an absent target -/

/-- C6: when the initial embedded-metadata fetch of `RemoveAll` reports
NotFound for the resolved target, the call returns a nil error, leaves
the store untouched, and its remote trace is exactly that single fetch —
absence of the initial target is never surfaced as an error. -/
theorem c6_removeall_absent_ok (fuel : Nat) (y : YdfsV) (st : St) (dir : String)
    (habs : lookupSt st (getFullPath y dir) = none) :
    removeAllM (fuel + 1) y st dir =
      (none, st, [Call.fetchEmbedded (getFullPath y dir)]) := by
  simp [removeAllM, getResourceWithEmbeddedM, habs]

/-- C6 witness: the theorem applied to a scoped view and a store that
does not contain the resolved path. -/
theorem c6_removeall_absent_ok_witness :
    lookupSt c5st (getFullPath scopedX "/zz") = none ∧
    removeAllM 1 scopedX c5st "/zz" =
      (none, c5st, [Call.fetchEmbedded (getFullPath scopedX "/zz")]) :=
  ⟨by decide, c6_removeall_absent_ok 0 scopedX c5st "/zz" (by decide)⟩

/-! ## C10: Create -/

/-- C10: `Create(name)` returns a nil handle and a nil error for every
name, issues no remote call and changes nothing. -/
theorem c10_create_nil (y : YdfsV) (st : St) (name : String) :
    createM y st name = ((none, none), st, []) := rfl

/-! ## C7: ReadDir with non-positive n -/

/-- C7 counterexample: on a directory of two children with one entry
already consumed, `ReadDir(0)` returns both entries (not the single
remaining one) and leaves the cursor at 2, not 0, falsifying the claim at
this input. -/
theorem c7_readdir_nonpositive_counterexample :
    (readDirY c7file c7st 0).1.1.length = 2 ∧
    (readDirY c7file c7st 0).2.rdoffset = 2 ∧
    ¬((readDirY c7file c7st 0).1.1.length = 1 ∧
      (readDirY c7file c7st 0).2.rdoffset = 0) := by
  refine ⟨by decide, by decide, by decide⟩

/-- C7 (amended): a `ReadDir(n)` call with `n <= 0` on a DIRECTORY handle
whose listing fetch succeeds resets `dirOffset` to 0 before copying and
then returns ALL `total` entries of the listing from the beginning (in
listing order, regardless of how many were already consumed), reports no
end-of-stream, and leaves `dirOffset` equal to `total` after the call. -/
theorem c7_readdir_nonpositive_amended (file : Ydfile) (st : St) (n : Int)
    (nd : Node) (hdir : file.isdir = true)
    (hst : lookupSt st file.path = some nd) (hn : n ≤ 0) :
    readDirY file st n =
      ((childrenOf st file.path, none),
        { file with rdoffset := (childrenOf st file.path).length }) := by
  have hn1 : n < 1 := by omega
  simp [readDirY, getResourceWithEmbeddedM, hst, hdir, hn1, List.take_length]

/-- C7 witness: the amended theorem applied to the two-child directory
with the cursor at 1 and `n = 0`. -/
theorem c7_readdir_nonpositive_amended_witness :
    c7file.isdir = true ∧ lookupSt c7st c7file.path = some { isdir := true } ∧
    readDirY c7file c7st 0 =
      ((childrenOf c7st c7file.path, none),
        { c7file with rdoffset := (childrenOf c7st c7file.path).length }) :=
  ⟨by decide, by decide,
    c7_readdir_nonpositive_amended c7file c7st 0 { isdir := true }
      (by decide) (by decide) (by decide)⟩

/-! ## C9: `file.go` ReadDir entries are the handle itself -/

/-- C9: every entry a `file.go` `ReadDir(n)` call returns is the
directory handle itself (its post-call value), so each entry's
Name/Size/ModTime/IsDir report the open directory's own metadata,
identical across the whole batch and independent of the children the
remote listing contained. -/
theorem c9_readdir_entries_are_handle (file : Ydfile) (st : St) (n : Int)
    (e : Ydfile) (he : e ∈ (readDirF file st n).1.1) :
    e.nameI = file.nameI ∧ e.sizeI = file.sizeI ∧
    e.modTimeI = file.modTimeI ∧ e.isDirI = file.isDirI ∧
    e = (readDirF file st n).2 := by
  by_cases hdir : file.isdir
  · rcases hfe : getResourceWithEmbeddedM st file.path with e' | ⟨res, items⟩
    · simp [readDirF, hdir, hfe] at he
    · by_cases hn : n < 1
      · simp only [readDirF, hdir, Bool.not_true, Bool.false_eq_true, if_false,
          hfe, hn, if_true] at he ⊢
        rw [List.mem_replicate] at he
        rcases he with ⟨-, rfl⟩
        refine ⟨rfl, rfl, rfl, ?_, rfl⟩
        simp [Ydfile.isDirI, hdir]
      · simp only [readDirF, hdir, Bool.not_true, Bool.false_eq_true, if_false,
          hfe, hn, if_false] at he ⊢
        rw [List.mem_replicate] at he
        rcases he with ⟨-, rfl⟩
        refine ⟨rfl, rfl, rfl, ?_, rfl⟩
        simp [Ydfile.isDirI, hdir]
  · simp [readDirF, hdir] at he

/-- C9 witness: a `ReadDir(2)` call on the three-child directory; the
handle's own record (with the advanced cursor) is among the entries and
the theorem applies to it. -/
theorem c9_readdir_entries_are_handle_witness :
    ({ c2dir with rdoffset := 3 }) ∈ (readDirF c2dir c2st 2).1.1 ∧
    ({ c2dir with rdoffset := 3 } : Ydfile).nameI = c2dir.nameI ∧
    ({ c2dir with rdoffset := 3 } : Ydfile).isDirI = c2dir.isDirI :=
  ⟨by decide,
    (c9_readdir_entries_are_handle c2dir c2st 2 _ (by decide)).1,
    (c9_readdir_entries_are_handle c2dir c2st 2 _ (by decide)).2.2.2.1⟩

/-! ## C8: scope path round-trip -/

theorem splitSlash_ne_nil (l : List Char) : splitSlash l ≠ [] := by
  cases l with
  | nil => simp [splitSlash]
  | cons c rest =>
    simp only [splitSlash]
    split
    · simp
    · split <;> simp

theorem splitSlash_append (xs ys : List Char) :
    splitSlash (xs ++ '/' :: ys) = splitSlash xs ++ splitSlash ys := by
  induction xs with
  | nil => simp [splitSlash]
  | cons c xs ih =>
    by_cases hc : c = '/'
    · simp [splitSlash, hc, ih]
    · simp only [List.cons_append, splitSlash, hc, if_false, List.append_eq]
      rw [ih]
      rcases h : splitSlash xs with _ | ⟨s, ss⟩
      · exact absurd h (splitSlash_ne_nil xs)
      · simp [h]

theorem splitSlash_of_not_mem (l : List Char) (h : ¬ '/' ∈ l) :
    splitSlash l = [l] := by
  induction l with
  | nil => rfl
  | cons c rest ih =>
    simp only [List.mem_cons, not_or] at h
    have hc : ¬ c = '/' := fun hc => h.1 hc.symm
    simp [splitSlash, hc, ih h.2]

theorem joinSegs_ne_nil (s : List Char) (rest : List (List Char)) (hs : s ≠ []) :
    joinSegs (s :: rest) ≠ [] := by
  cases rest <;> simp [joinSegs, hs]

theorem splitSlash_joinSegs (segs : List (List Char)) (hne : segs ≠ [])
    (h : ∀ s ∈ segs, ¬ '/' ∈ s) : splitSlash (joinSegs segs) = segs := by
  induction segs with
  | nil => exact absurd rfl hne
  | cons s rest ih =>
    cases rest with
    | nil => exact splitSlash_of_not_mem s (h s (by simp))
    | cons t ts =>
      have e1 : joinSegs (s :: t :: ts) = s ++ '/' :: joinSegs (t :: ts) := rfl
      rw [e1, splitSlash_append, splitSlash_of_not_mem s (h s (by simp)),
        ih (by simp) (fun x hx => h x (List.mem_cons_of_mem s hx))]
      rfl

theorem joinSegs_cons_append (b : List Char) (bs ps : List (List Char))
    (hps : ps ≠ []) :
    joinSegs ((b :: bs) ++ ps) = joinSegs (b :: bs) ++ '/' :: joinSegs ps := by
  induction bs generalizing b with
  | nil =>
    cases ps with
    | nil => exact absurd rfl hps
    | cons p pr => rfl
  | cons c cs ih =>
    have e1 : joinSegs ((b :: c :: cs) ++ ps) = b ++ '/' :: joinSegs ((c :: cs) ++ ps) := rfl
    have e2 : joinSegs (b :: c :: cs) = b ++ '/' :: joinSegs (c :: cs) := rfl
    rw [e1, ih c, e2]
    simp

theorem cleanCore_cons_empty (rooted : Bool) (segs : List (List Char))
    (acc : List (List Char)) :
    cleanCore rooted ([] :: segs) acc = cleanCore rooted segs acc := by
  simp [cleanCore]

theorem cleanCore_good (rooted : Bool) (segs : List (List Char))
    (acc : List (List Char)) (h : ∀ s ∈ segs, GoodSeg s) :
    cleanCore rooted segs acc = acc.reverse ++ segs := by
  induction segs generalizing acc with
  | nil => simp [cleanCore]
  | cons s rest ih =>
    obtain ⟨h1, h2, h3, -⟩ := h s (by simp)
    have hcond : ¬ (s = [] ∨ s = ['.']) := by simp [h1, h2]
    simp only [cleanCore]
    rw [if_neg hcond, if_neg h3,
      ih _ (fun x hx => h x (List.mem_cons_of_mem s hx))]
    simp

theorem string_mk_cons_ne_empty (c : Char) (l : List Char) :
    String.mk (c :: l) ≠ "" := by
  intro h
  have h2 : (String.mk (c :: l)).data = ("" : String).data := congrArg String.data h
  exact absurd h2 (by simp)

theorem goPathClean_absOfSegs (segs : List (List Char)) (hne : segs ≠ [])
    (h : ∀ s ∈ segs, GoodSeg s) : goPathClean (absOfSegs segs) = absOfSegs segs := by
  have hslash : ∀ s ∈ segs, ¬ '/' ∈ s := fun s hs => (h s hs).2.2.2
  have hsp : splitSlash ('/' :: joinSegs segs) = [] :: splitSlash (joinSegs segs) := by
    simp [splitSlash]
  rw [absOfSegs, goPathClean, if_neg (string_mk_cons_ne_empty _ _)]
  simp only [List.head?_cons, decide_True, if_true, eq_self_iff_true]
  rw [hsp, splitSlash_joinSegs segs hne hslash, cleanCore_cons_empty,
    cleanCore_good _ _ _ h]
  simp

theorem slash_append_relOfSegs (segs : List (List Char)) :
    "/" ++ relOfSegs segs = absOfSegs segs := by
  apply String.ext
  simp [relOfSegs, absOfSegs, String.data_append]

theorem specNormalize_relOfSegs (segs : List (List Char)) (hne : segs ≠ [])
    (h : ∀ s ∈ segs, GoodSeg s) :
    specNormalize (relOfSegs segs) = absOfSegs segs := by
  rw [specNormalize, slash_append_relOfSegs, goPathClean_absOfSegs segs hne h]

theorem relOfSegs_ne_empty (segs : List (List Char)) (hne : segs ≠ [])
    (h : ∀ s ∈ segs, GoodSeg s) : relOfSegs segs ≠ "" := by
  cases segs with
  | nil => exact absurd rfl hne
  | cons s rest =>
    have hs : s ≠ [] := (h s (by simp)).1
    intro he
    have h2 : (relOfSegs (s :: rest)).data = ("" : String).data := congrArg String.data he
    simp only [relOfSegs] at h2
    exact joinSegs_ne_nil s rest hs (by simpa using h2)

theorem absOfSegs_append (bs ps : List (List Char)) (hb : bs ≠ []) (hp : ps ≠ []) :
    absOfSegs (bs ++ ps) = absOfSegs bs ++ "/" ++ relOfSegs ps := by
  cases bs with
  | nil => exact absurd rfl hb
  | cons b brest =>
    apply String.ext
    rw [String.data_append, String.data_append]
    simp only [absOfSegs, relOfSegs]
    rw [joinSegs_cons_append b brest ps hp]
    simp

theorem goPathJoin_abs_rel (bs ps : List (List Char)) (hb : bs ≠ [])
    (hgb : ∀ s ∈ bs, GoodSeg s) (hp : ps ≠ []) (hgp : ∀ s ∈ ps, GoodSeg s) :
    goPathJoin (absOfSegs bs) (relOfSegs ps) = absOfSegs (bs ++ ps) := by
  have habs : absOfSegs bs ≠ "" := by
    rw [absOfSegs]; exact string_mk_cons_ne_empty _ _
  have hrel : relOfSegs ps ≠ "" := relOfSegs_ne_empty ps hp hgp
  rw [goPathJoin, if_neg (fun hand => habs hand.1), if_neg habs, if_neg hrel,
    ← absOfSegs_append bs ps hb hp,
    goPathClean_absOfSegs _ (by simp [hb])
      (fun s hs => by
        rcases List.mem_append.mp hs with h' | h'
        · exact hgb s h'
        · exact hgp s h')]

theorem goPathClean_root_rel (segs : List (List Char)) (hne : segs ≠ [])
    (h : ∀ s ∈ segs, GoodSeg s) :
    goPathClean (String.mk ('/' :: '/' :: joinSegs segs)) = absOfSegs segs := by
  have hslash : ∀ s ∈ segs, ¬ '/' ∈ s := fun s hs => (h s hs).2.2.2
  have hsp : splitSlash ('/' :: '/' :: joinSegs segs)
      = [] :: [] :: splitSlash (joinSegs segs) := by
    simp [splitSlash]
  rw [goPathClean, if_neg (string_mk_cons_ne_empty _ _)]
  simp only [List.head?_cons, decide_True, if_true, eq_self_iff_true]
  rw [hsp, splitSlash_joinSegs segs hne hslash, cleanCore_cons_empty,
    cleanCore_cons_empty, cleanCore_good _ _ _ h]
  simp [absOfSegs]

theorem goPathJoin_root_rel (ps : List (List Char)) (hp : ps ≠ [])
    (hgp : ∀ s ∈ ps, GoodSeg s) :
    goPathJoin "/" (relOfSegs ps) = absOfSegs ps := by
  have hrel : relOfSegs ps ≠ "" := relOfSegs_ne_empty ps hp hgp
  have hroot : ("/" : String) ≠ "" := by decide
  have hcat : "/" ++ "/" ++ relOfSegs ps = String.mk ('/' :: '/' :: joinSegs ps) := by
    apply String.ext
    simp [relOfSegs, String.data_append]
  rw [goPathJoin, if_neg (fun hand => hroot hand.1), if_neg hroot, if_neg hrel,
    hcat, goPathClean_root_rel ps hp hgp]

/-- C8 counterexample: on the sub-FS rooted at `/x`, applying `unresolve`
(`trimRootPath`) to the absolute path that equals the view's `basePath`
yields the empty string, not `"/"` as the claim states. -/
theorem c8_scope_base_counterexample :
    trimRootPath scopedX "/x" = "" ∧ trimRootPath scopedX "/x" ≠ "/" := by
  refine ⟨by decide, by decide⟩

/-- C8 (amended): for an unscoped view both `resolve` (`getFullPath`)
and `unresolve` (`trimRootPath`) return their input unchanged; for a
scoped view whose `basePath` is a cleaned rooted path other than `"/"`
(`absOfSegs bsegs` with `bsegs` nonempty plain segments) and any
relative path strictly within scope (a nonempty sequence of plain
segments), `unresolve(resolve(p))` equals the normalized (cleaned,
view-rooted) form of `p`; for the scoped view whose `basePath` is `"/"`
(reachable via `Sub("/")`) it instead equals that normalized form
without its leading slash, because `trimRootPath` strips
`len(basePath) = 1` character; and when the absolute path equals the
view's `basePath`, `unresolve` returns the empty string `""`, not
`"/"`. -/
theorem c8_scope_roundtrip_amended :
    (∀ (y : YdfsV), y.issub = false →
      ∀ p, getFullPath y p = p ∧ trimRootPath y p = p) ∧
    (∀ bsegs psegs : List (List Char), bsegs ≠ [] → (∀ s ∈ bsegs, GoodSeg s) →
      psegs ≠ [] → (∀ s ∈ psegs, GoodSeg s) →
      trimRootPath ⟨absOfSegs bsegs, true⟩
          (getFullPath ⟨absOfSegs bsegs, true⟩ (relOfSegs psegs)) =
        specNormalize (relOfSegs psegs)) ∧
    (∀ psegs : List (List Char), psegs ≠ [] → (∀ s ∈ psegs, GoodSeg s) →
      trimRootPath ⟨"/", true⟩
          (getFullPath ⟨"/", true⟩ (relOfSegs psegs)) =
          (specNormalize (relOfSegs psegs)).drop 1 ∧
        (specNormalize (relOfSegs psegs)).drop 1 = relOfSegs psegs) ∧
    (∀ bsegs : List (List Char),
      trimRootPath ⟨absOfSegs bsegs, true⟩ (absOfSegs bsegs) = "") := by
  refine ⟨?_, ?_, ?_, ?_⟩
  · intro y hy p
    constructor
    · simp [getFullPath, hy]
    · simp [trimRootPath, hy]
  · intro bsegs psegs hb hgb hp hgp
    have hfull : getFullPath ⟨absOfSegs bsegs, true⟩ (relOfSegs psegs)
        = absOfSegs (bsegs ++ psegs) := by
      simp only [getFullPath, if_true]
      exact goPathJoin_abs_rel bsegs psegs hb hgb hp hgp
    rw [hfull, specNormalize_relOfSegs psegs hp hgp]
    simp only [trimRootPath, if_true]
    apply String.ext
    rw [String.data_drop, absOfSegs_append bsegs psegs hb hp]
    have hlen : (absOfSegs bsegs).length = (absOfSegs bsegs).data.length := rfl
    rw [String.data_append, String.data_append, List.append_assoc, hlen,
      List.drop_left]
    apply (String.data_append _ _).symm.trans
    rw [slash_append_relOfSegs]
  · intro psegs hp hgp
    have hfull : getFullPath ⟨"/", true⟩ (relOfSegs psegs) = absOfSegs psegs := by
      simp only [getFullPath, if_true]
      exact goPathJoin_root_rel psegs hp hgp
    have hdrop : (absOfSegs psegs).drop 1 = relOfSegs psegs := by
      apply String.ext
      rw [String.data_drop]
      rfl
    have hlen1 : ("/" : String).length = 1 := by decide
    constructor
    · rw [hfull, specNormalize_relOfSegs psegs hp hgp]
      simp only [trimRootPath, if_true]
      rw [hlen1]
    · rw [specNormalize_relOfSegs psegs hp hgp]
      exact hdrop
  · intro bsegs
    simp only [trimRootPath, if_true]
    apply String.ext
    rw [String.data_drop]
    have hlen : (absOfSegs bsegs).length = (absOfSegs bsegs).data.length := rfl
    rw [hlen, List.drop_length]

/-- C8 witness: the amended round-trip applied to the scoped view with
base `/x` and the relative path `a` (both built from one plain segment
each), and the base-`"/"` case applied to the same relative path. -/
theorem c8_scope_roundtrip_amended_witness :
    (([['x']] : List (List Char)) ≠ [] ∧ (∀ s ∈ [['x']], GoodSeg s) ∧
      ([['a']] : List (List Char)) ≠ [] ∧ (∀ s ∈ [['a']], GoodSeg s)) ∧
    trimRootPath ⟨absOfSegs [['x']], true⟩
        (getFullPath ⟨absOfSegs [['x']], true⟩ (relOfSegs [['a']])) =
      specNormalize (relOfSegs [['a']]) ∧
    trimRootPath ⟨"/", true⟩ (getFullPath ⟨"/", true⟩ (relOfSegs [['a']])) =
      (specNormalize (relOfSegs [['a']])).drop 1 :=
  ⟨⟨by decide, by decide, by decide, by decide⟩,
    c8_scope_roundtrip_amended.2.1 [['x']] [['a']]
      (by decide) (by decide) (by decide) (by decide),
    (c8_scope_roundtrip_amended.2.2.1 [['a']] (by decide) (by decide)).1⟩
